import Mathlib

/-!
Shallow embedding of `src/lib/aggregate-expression.js` (evanculler/utils):
a parser and utilities for aggregate expressions of the form `fn[:field]`.

Fields are objects `{ name, label, dataType }`; field collections are
modelled as Lean lists (in JS they are arrays or hashes iterated in order).
JS strings are Lean `String`s; operations that would throw a `TypeError`
(dereferencing an absent field) or a joi `ValidationError` are modelled as
`Option`-returning functions, with `none` standing for the raised error.
-/

namespace Utils

/-- A field object `{ name, label, dataType }` as consumed by the module. -/
structure Field where
  name : String
  label : String
  dataType : String
deriving DecidableEq, Repr

/-- `new AggregateExpression(fn, field)`: `fn` is the aggregate function
string and `field` the (possibly absent) field being aggregated. -/
structure AggregateExpression where
  fn : String
  field : Option Field
deriving DecidableEq, Repr

/-- `expr.split(':')` — JS `String.prototype.split` with a single-character
separator, here implemented by direct recursion on the character list.
`cur` accumulates the current segment in reverse. -/
def jsSplitAux (sep : Char) : List Char → List Char → List String
  | [], cur => [String.mk cur.reverse]
  | c :: cs, cur =>
    if c = sep then String.mk cur.reverse :: jsSplitAux sep cs []
    else jsSplitAux sep cs (c :: cur)

/-- JS `s.split(sep)` for a one-character separator. -/
def jsSplit (s : String) (sep : Char) : List String :=
  jsSplitAux sep s.data []

/-- `internals.valids(fields)`: the list of valid aggregate shorthands,
a lodash `reduce` over the fields whose dataType is `'number'` or `'date'`,
starting from `['count']` and pushing `max:`/`min:` shorthands, plus
`sum:`/`avg:` for `'number'` fields. -/
def internals.valids (fields : List Field) : List String :=
  (fields.filter (fun f => f.dataType == "number" || f.dataType == "date")).foldl
    (fun acc f =>
      let acc := acc ++ ["max:" ++ f.name]
      let acc := acc ++ ["min:" ++ f.name]
      if f.dataType == "number" then
        (acc ++ ["sum:" ++ f.name]) ++ ["avg:" ++ f.name]
      else acc)
    ["count"]

/-- `AggregateExpression.prototype.label`: the JS `switch` on `this.fn`.
Branches that dereference `this.field.label` return `none` when the field
is absent (a JS `TypeError`). -/
def AggregateExpression.label (e : AggregateExpression) : Option String :=
  if e.fn = "count" then some "Total Count"
  else if e.fn = "sum" then e.field.map (fun f => "Total " ++ f.label)
  else if e.fn = "avg" then e.field.map (fun f => "Average " ++ f.label)
  else if e.fn = "max" then e.field.map (fun f => "Max " ++ f.label)
  else if e.fn = "min" then e.field.map (fun f => "Min " ++ f.label)
  else some "Unknown"

/-- `AggregateExpression.prototype.fieldLabel`: `this.field && this.field.label`
(JS `&&` yields `undefined` when the field is absent). -/
def AggregateExpression.fieldLabel (e : AggregateExpression) : Option String :=
  e.field.map (fun f => f.label)

/-- `AggregateExpression.prototype.toString`: `'count'` for the count
expression, otherwise `` `${fn}:${field.name}` `` (`none` when the field is
absent and the template would throw). -/
def AggregateExpression.toString (e : AggregateExpression) : Option String :=
  if e.fn = "count" then some "count"
  else e.field.map (fun f => e.fn ++ ":" ++ f.name)

/-- `AggregateExpression.parse(fields, expr)`: asserts that `expr` is one of
`internals.valids(fields)` (joi `ValidationError`, modelled as `none`,
otherwise), then splits on `':'`, takes the first part as the function and
looks the second part up by name (`_.find(fields, {name: parts[1]})`; for
`'count'` there is no second part and the field is absent). -/
def AggregateExpression.parse (fields : List Field) (expr : String) :
    Option AggregateExpression :=
  if expr ∈ internals.valids fields then
    some ⟨(jsSplit expr ':').headD "",
      ((jsSplit expr ':')[1]?).bind (fun n => fields.find? (fun f => f.name == n))⟩
  else none

/-- `AggregateExpression.count()`. -/
def AggregateExpression.count : AggregateExpression := ⟨"count", none⟩

/-- `AggregateExpression.sum(field)`. -/
def AggregateExpression.sum (field : Field) : AggregateExpression := ⟨"sum", some field⟩

/-- `AggregateExpression.avg(field)`. -/
def AggregateExpression.avg (field : Field) : AggregateExpression := ⟨"avg", some field⟩

/-- `AggregateExpression.max(field)`. -/
def AggregateExpression.max (field : Field) : AggregateExpression := ⟨"max", some field⟩

/-- `AggregateExpression.min(field)`. -/
def AggregateExpression.min (field : Field) : AggregateExpression := ⟨"min", some field⟩

/-- lodash `_.difference(a, b)`: the elements of `a` not in `b`, in the
order of `a`, duplicates of `a` preserved. -/
def lodashDifference (a b : List String) : List String :=
  a.filter (fun x => !(b.contains x))

/-- Keep the first occurrence of each element, skipping anything already in
`seen` (helper for `_.intersection`). -/
def dedupFirstAux (seen : List String) : List String → List String
  | [] => []
  | x :: xs =>
    if seen.contains x then dedupFirstAux seen xs
    else x :: dedupFirstAux (x :: seen) xs

/-- Keep the first occurrence of each element (helper for `_.intersection`). -/
def dedupFirst (l : List String) : List String :=
  dedupFirstAux [] l

/-- lodash `_.intersection(a, b)`: unique values of `a` that also occur in
`b`, ordered by `a`. -/
def lodashIntersection (a b : List String) : List String :=
  dedupFirst (a.filter (fun x => b.contains x))

/-- `AggregateExpression.of(fields, fns)`: `fns` is optional and defaults to
all five functions (JS `fns = fns || [...]`; an explicitly passed array,
even empty, is truthy and kept). Count expressions come from
`_.intersection(fns, ['count'])`, number-field expressions use
`_.difference(fns, ['count'])`, date-field expressions use
`_.difference(fns, ['count','sum','avg'])`, each block a `reduce` that
concatenates per-field expression lists in input order. -/
def AggregateExpression.of (fields : List Field) (fns? : Option (List String)) :
    List AggregateExpression :=
  let fns := fns?.getD ["count", "sum", "avg", "max", "min"]
  let numberFns := lodashDifference fns ["count"]
  let dateFns := lodashDifference fns ["count", "sum", "avg"]
  let countExprs := (lodashIntersection fns ["count"]).map
    (fun _ => AggregateExpression.count)
  let numberExprs := (fields.filter (fun f => f.dataType == "number")).foldl
    (fun acc field => acc ++ numberFns.map (fun fn => ⟨fn, some field⟩)) []
  let dateExprs := (fields.filter (fun f => f.dataType == "date")).foldl
    (fun acc field => acc ++ dateFns.map (fun fn => ⟨fn, some field⟩)) []
  (countExprs ++ numberExprs) ++ dateExprs

/-- Modelled from the spec: a result bucket from the backend aggregation,
"carrying a key and either a document count or a computed metric value"
(glossary); `values` gives the bucket's named metric values, `doc_count`
its document count. Metric values are modelled as naturals. -/
structure ESBucket where
  key : String
  doc_count : Nat
  values : String → Nat

/-- Modelled from the spec: the state of the external Aggregation Builder
(`./aggregation` is not under `src/`). Per §4.7 it accumulates named
aggregation specs (`registerAggregation(name, spec)` — a spec
`{fn: {field: f}}` is modelled as the pair `(fn, f)`), ordering
configuration (`configureOrdering(name, direction)`), and bucket mappers
(`setBucketMapper`). Registrations are recorded in call order. -/
structure Aggregation (T : Type) where
  aggs : List (String × String × String)
  configs : List (String × String)
  mappers : List (ESBucket → T)

/-- Modelled from the spec: `agg.aggregation(name, spec)` registers a named
aggregation spec on the builder. -/
def Aggregation.aggregation (agg : Aggregation T) (name : String)
    (spec : String × String) : Aggregation T :=
  { agg with aggs := agg.aggs ++ [(name, spec)] }

/-- Modelled from the spec: `.configure({order: {[name]: dir}})` records an
ordering configuration — "order its result buckets descending by the
computed metric". -/
def Aggregation.configure (agg : Aggregation T) (ord : String × String) :
    Aggregation T :=
  { agg with configs := agg.configs ++ [ord] }

/-- Modelled from the spec: `agg.mapper(m)` attaches a result bucket mapper. -/
def Aggregation.mapper (agg : Aggregation T) (m : ESBucket → T) : Aggregation T :=
  { agg with mappers := agg.mappers ++ [m] }

/-- Modelled from the spec: `Aggregation.bucketMapper(cb)` lifts a callback
over a bucket and its named metric values into a per-bucket mapper (a JS
callback taking only the bucket ignores the second argument). -/
def Aggregation.bucketMapper (cb : ESBucket → (String → Nat) → T) :
    ESBucket → T :=
  fun b => cb b b.values

/-- The `{label: ..., value: ...}` tuple produced by `apply`'s default mapper. -/
structure LabelValue where
  label : String
  value : Nat
deriving DecidableEq, Repr

/-- The `defaultMapper` of `AggregateExpression.prototype.apply`:
`(label, value) => ({label, value})`. -/
def defaultMapper (label : String) (value : Nat) : LabelValue :=
  ⟨label, value⟩

/-- `AggregateExpression.prototype.apply(agg, mapper)` with the mapper
argument already supplied (JS defaults an omitted mapper to
`defaultMapper`; see `AggregateExpression.applyDefault`). Computes
`aggId = this.toString()` (throwing, i.e. `none`, if the field is absent on
a non-count expression), then either chains
`agg.aggregation(aggId, {fn: {field}}).configure({order: {[aggId]: 'desc'}}).mapper(...)`
or, for count, only attaches a doc-count bucket mapper; returns the builder. -/
def AggregateExpression.apply (e : AggregateExpression) (agg : Aggregation T)
    (mapper : String → Nat → T) : Option (Aggregation T) :=
  match e.toString with
  | none => none
  | some aggId =>
    if e.fn ≠ "count" then
      match e.field with
      | none => none
      | some f =>
        some (((agg.aggregation aggId (e.fn, f.name)).configure
          (aggId, "desc")).mapper
          (Aggregation.bucketMapper (fun b v => mapper b.key (v aggId))))
    else
      some (agg.mapper (Aggregation.bucketMapper (fun b _ => mapper b.key b.doc_count)))

/-- `apply` with the mapper omitted: `mapper = mapper || defaultMapper`. -/
def AggregateExpression.applyDefault (e : AggregateExpression)
    (agg : Aggregation LabelValue) : Option (Aggregation LabelValue) :=
  e.apply agg defaultMapper

/-- The spec's data-model invariant (§3): `field` present and non-null for
every `fn` except `count`; absent for `count`. -/
def wellFormed (e : AggregateExpression) : Prop :=
  if e.fn = "count" then e.field = none else e.field.isSome

/-- The shorthand strings a single eligible field contributes to
`internals.valids`. -/
def validContrib (f : Field) : List String :=
  ["max:" ++ f.name, "min:" ++ f.name] ++
    (if f.dataType == "number" then ["sum:" ++ f.name, "avg:" ++ f.name] else [])

theorem foldl_append_flatMap {α β : Type} (g : α → List β) (l : List α) (init : List β) :
    l.foldl (fun acc x => acc ++ g x) init = init ++ l.flatMap g := by
  induction l generalizing init with
  | nil => simp
  | cons x l ih => simp [ih, List.append_assoc]

/-- Closed form of `internals.valids`. -/
theorem valids_eq (fields : List Field) :
    internals.valids fields =
      "count" ::
        (fields.filter (fun f => f.dataType == "number" || f.dataType == "date")).flatMap
          validContrib := by
  unfold internals.valids
  have hfun : (fun (acc : List String) (f : Field) =>
      let acc1 := acc ++ ["max:" ++ f.name]
      let acc2 := acc1 ++ ["min:" ++ f.name]
      if f.dataType == "number" then
        (acc2 ++ ["sum:" ++ f.name]) ++ ["avg:" ++ f.name]
      else acc2)
      = fun acc f => acc ++ validContrib f := by
    funext acc f
    simp only [validContrib]
    by_cases h : f.dataType == "number" <;> simp [h, List.append_assoc]
  rw [hfun, foldl_append_flatMap]
  rfl

theorem dedupFirstAux_all_eq (a : String) :
    ∀ l seen : List String, (∀ x ∈ l, x = a) →
      dedupFirstAux seen l =
        if l ≠ [] ∧ ¬(seen.contains a = true) then [a] else [] := by
  intro l
  induction l with
  | nil => intro seen _; simp [dedupFirstAux]
  | cons x xs ih =>
    intro seen h
    have hx : x = a := h x (List.mem_cons_self _ _)
    have hxs : ∀ y ∈ xs, y = a := fun y hy => h y (List.mem_cons_of_mem _ hy)
    rw [dedupFirstAux]
    by_cases hseen : seen.contains a = true
    · have hseenx : seen.contains x = true := by rw [hx]; exact hseen
      rw [if_pos hseenx, ih seen hxs,
        if_neg (fun hc => hc.2 hseen), if_neg (fun hc => hc.2 hseen)]
    · have hseenx : ¬(seen.contains x = true) := by rw [hx]; exact hseen
      rw [if_neg hseenx, ih (x :: seen) hxs]
      have hc : (x :: seen).contains a = true := by simp [hx]
      rw [if_neg (fun hcc => hcc.2 hc), if_pos ⟨List.cons_ne_nil _ _, hseen⟩, hx]

theorem dedupFirst_all_eq (a : String) :
    ∀ l : List String, (∀ x ∈ l, x = a) →
      dedupFirst l = if l = [] then [] else [a] := by
  intro l h
  rw [dedupFirst, dedupFirstAux_all_eq a l [] h]
  by_cases hl : l = [] <;> simp [hl]

theorem inter_count (fns : List String) :
    lodashIntersection fns ["count"] = if "count" ∈ fns then ["count"] else [] := by
  unfold lodashIntersection
  have hall : ∀ x ∈ fns.filter (fun x => (["count"] : List String).contains x), x = "count" := by
    intro x hx
    have := List.of_mem_filter hx
    simpa using this
  rw [dedupFirst_all_eq "count" _ hall]
  have hiff : fns.filter (fun x => (["count"] : List String).contains x) = [] ↔
      "count" ∉ fns := by
    rw [List.filter_eq_nil_iff]
    constructor
    · intro hforall hc
      exact (hforall "count" hc) (by simp)
    · intro hnc x hx hcont
      have hxc : x = "count" := by simpa using hcont
      exact hnc (hxc ▸ hx)
  by_cases h : "count" ∈ fns
  · rw [if_neg (fun hh => (hiff.mp hh) h), if_pos h]
  · rw [if_pos (hiff.mpr h), if_neg h]

/-- Closed form of `AggregateExpression.of`. -/
theorem of_eq (fields : List Field) (fns : List String) :
    AggregateExpression.of fields (some fns) =
      (if "count" ∈ fns then [AggregateExpression.count] else []) ++
      ((fields.filter (fun f => f.dataType == "number")).flatMap
        (fun f => (lodashDifference fns ["count"]).map
          (fun fn => (⟨fn, some f⟩ : AggregateExpression))) ++
      (fields.filter (fun f => f.dataType == "date")).flatMap
        (fun f => (lodashDifference fns ["count", "sum", "avg"]).map
          (fun fn => (⟨fn, some f⟩ : AggregateExpression)))) := by
  simp only [AggregateExpression.of, Option.getD_some]
  rw [foldl_append_flatMap, foldl_append_flatMap, inter_count]
  by_cases h : "count" ∈ fns <;>
    simp [h, List.append_assoc, AggregateExpression.count]

theorem jsSplitAux_no_sep (sep : Char) :
    ∀ cs cur : List Char, sep ∉ cs →
      jsSplitAux sep cs cur = [String.mk (cur.reverse ++ cs)] := by
  intro cs
  induction cs with
  | nil => intro cur _; simp [jsSplitAux]
  | cons c cs ih =>
    intro cur h
    have hc : ¬(c = sep) := fun hc => h (hc ▸ List.mem_cons_self _ _)
    rw [jsSplitAux, if_neg hc, ih (c :: cur) (fun h2 => h (List.mem_cons_of_mem _ h2))]
    simp [List.append_assoc]

theorem jsSplitAux_sep_split (sep : Char) :
    ∀ cs1 cs2 cur : List Char, sep ∉ cs1 →
      jsSplitAux sep (cs1 ++ sep :: cs2) cur =
        String.mk (cur.reverse ++ cs1) :: jsSplitAux sep cs2 [] := by
  intro cs1
  induction cs1 with
  | nil =>
    intro cs2 cur _
    rw [List.nil_append, jsSplitAux, if_pos rfl]
    simp
  | cons c cs1 ih =>
    intro cs2 cur h
    have hc : ¬(c = sep) := fun hc => h (hc ▸ List.mem_cons_self _ _)
    rw [List.cons_append, jsSplitAux, if_neg hc,
      ih cs2 (c :: cur) (fun h2 => h (List.mem_cons_of_mem _ h2))]
    simp [List.append_assoc]

theorem jsSplit_fn_name (fn nm : String) (hfn : ':' ∉ fn.data) (hnm : ':' ∉ nm.data) :
    jsSplit (fn ++ ":" ++ nm) ':' = [fn, nm] := by
  unfold jsSplit
  have hdata : (fn ++ ":" ++ nm).data = fn.data ++ ':' :: nm.data := by
    simp [String.data_append]
  rw [hdata, jsSplitAux_sep_split ':' fn.data nm.data [] hfn,
    jsSplitAux_no_sep ':' nm.data [] hnm]
  simp

theorem find_name (F : List Field) (f : Field) (hf : f ∈ F) :
    ∃ g, F.find? (fun x => x.name == f.name) = some g ∧ g.name = f.name := by
  have hs : (F.find? (fun x => x.name == f.name)).isSome := by
    rw [List.find?_isSome]
    exact ⟨f, hf, by simp⟩
  obtain ⟨g, hg⟩ := Option.isSome_iff_exists.mp hs
  exact ⟨g, hg, by simpa using List.find?_some hg⟩

theorem shorthand_mem_valids (F : List Field) (f : Field) (fn : String) (hf : f ∈ F)
    (hcompat : (fn = "sum" ∨ fn = "avg") ∧ f.dataType = "number" ∨
      (fn = "max" ∨ fn = "min") ∧ (f.dataType = "number" ∨ f.dataType = "date")) :
    (fn ++ ":" ++ f.name) ∈ internals.valids F := by
  rw [valids_eq]
  apply List.mem_cons_of_mem
  rw [List.mem_flatMap]
  refine ⟨f, List.mem_filter.mpr ⟨hf, ?_⟩, ?_⟩
  · rcases hcompat with ⟨_, hd⟩ | ⟨_, hd | hd⟩ <;> simp [hd]
  · unfold validContrib
    rcases hcompat with ⟨hfn, hd⟩ | ⟨hfn, hd⟩
    · rcases hfn with hfn | hfn <;> subst hfn <;> simp [hd]
    · rcases hfn with hfn | hfn <;> subst hfn <;>
        rcases hd with hd | hd <;> simp [hd]

theorem parse_count (F : List Field) :
    AggregateExpression.parse F "count" = some AggregateExpression.count := by
  unfold AggregateExpression.parse
  rw [if_pos (by rw [valids_eq]; exact List.mem_cons_self _ _)]
  rfl

theorem parse_shorthand (F : List Field) (f : Field) (fn : String) (hf : f ∈ F)
    (hfn : ':' ∉ fn.data) (hnm : ':' ∉ f.name.data)
    (hmem : (fn ++ ":" ++ f.name) ∈ internals.valids F) :
    ∃ g, AggregateExpression.parse F (fn ++ ":" ++ f.name) =
      some ⟨fn, some g⟩ ∧ g.name = f.name := by
  obtain ⟨g, hg, hgname⟩ := find_name F f hf
  refine ⟨g, ?_, hgname⟩
  unfold AggregateExpression.parse
  rw [if_pos hmem, jsSplit_fn_name fn f.name hfn hnm]
  simp [hg]

theorem lodashDifference_mem (x : String) (a b : List String) :
    x ∈ lodashDifference a b ↔ x ∈ a ∧ x ∉ b := by
  simp [lodashDifference, List.mem_filter]

/-- Characterisation of membership in `AggregateExpression.of`. -/
theorem mem_of_shape (F : List Field) (fns : List String) (e : AggregateExpression)
    (he : e ∈ AggregateExpression.of F (some fns)) :
    e = AggregateExpression.count ∨
    ∃ f ∈ F, ∃ fn ∈ fns, e = ⟨fn, some f⟩ ∧ fn ≠ "count" ∧
      (f.dataType = "number" ∨
        (f.dataType = "date" ∧ fn ≠ "sum" ∧ fn ≠ "avg")) := by
  rw [of_eq] at he
  rcases List.mem_append.mp he with h | h
  · left
    by_cases hc : "count" ∈ fns
    · rw [if_pos hc] at h
      simpa using h
    · rw [if_neg hc] at h
      simp at h
  · right
    rcases List.mem_append.mp h with h | h
    · rw [List.mem_flatMap] at h
      obtain ⟨f, hfmem, hmap⟩ := h
      rw [List.mem_map] at hmap
      obtain ⟨fn, hfn, rfl⟩ := hmap
      have hffilter := List.mem_filter.mp hfmem
      have hfnd := (lodashDifference_mem fn fns ["count"]).mp hfn
      refine ⟨f, hffilter.1, fn, hfnd.1, rfl, ?_, Or.inl ?_⟩
      · simpa using hfnd.2
      · simpa using hffilter.2
    · rw [List.mem_flatMap] at h
      obtain ⟨f, hfmem, hmap⟩ := h
      rw [List.mem_map] at hmap
      obtain ⟨fn, hfn, rfl⟩ := hmap
      have hffilter := List.mem_filter.mp hfmem
      have hfnd := (lodashDifference_mem fn fns ["count", "sum", "avg"]).mp hfn
      have hfnot := hfnd.2
      simp only [List.mem_cons, List.not_mem_nil, or_false, not_or] at hfnot
      refine ⟨f, hffilter.1, fn, hfnd.1, rfl, hfnot.1, Or.inr ?_⟩
      exact ⟨by simpa using hffilter.2, hfnot.2.1, hfnot.2.2⟩

/-- The expressions the round-trip law is amended to: those produced by the
factories from a field of `F` whose dataType is compatible with the
function, or by `of` from `F` with an allow-list drawn from the five known
function names. -/
def producedCompatible (F : List Field) (e : AggregateExpression) : Prop :=
  e = AggregateExpression.count ∨
  (∃ f ∈ F,
    ((e = AggregateExpression.sum f ∨ e = AggregateExpression.avg f) ∧
      f.dataType = "number") ∨
    ((e = AggregateExpression.max f ∨ e = AggregateExpression.min f) ∧
      (f.dataType = "number" ∨ f.dataType = "date"))) ∨
  (∃ fns, (∀ x ∈ fns, x ∈ (["count", "sum", "avg", "max", "min"] : List String)) ∧
    e ∈ AggregateExpression.of F (some fns))

theorem roundtrip_noncount (F : List Field) (f : Field) (fn : String) (hf : f ∈ F)
    (hnm : ':' ∉ f.name.data) (hfncolon : ':' ∉ fn.data) (hfnc : fn ≠ "count")
    (hcompat : (fn = "sum" ∨ fn = "avg") ∧ f.dataType = "number" ∨
      (fn = "max" ∨ fn = "min") ∧ (f.dataType = "number" ∨ f.dataType = "date")) :
    ∃ s e2, (AggregateExpression.mk fn (some f)).toString = some s ∧
      AggregateExpression.parse F s = some e2 ∧ e2.fn = fn ∧
      e2.field.map Field.name = some f.name := by
  have hmem := shorthand_mem_valids F f fn hf hcompat
  obtain ⟨g, hparse, hgname⟩ := parse_shorthand F f fn hf hfncolon hnm hmem
  refine ⟨fn ++ ":" ++ f.name, ⟨fn, some g⟩, ?_, hparse, rfl, by simp [hgname]⟩
  simp [AggregateExpression.toString, hfnc]

/-- C1 (counterexample): `sum` applied, via the unchecked factory, to a
`date` field of `F` yields an expression whose shorthand `parse (F, ·)`
rejects, so the round-trip law fails for it as stated. -/
theorem c1_roundtrip_cex :
    (AggregateExpression.sum ⟨"d", "D", "date"⟩).toString = some "sum:d" ∧
    AggregateExpression.parse [⟨"d", "D", "date"⟩] "sum:d" = none := by
  decide

/-- C1 (amended): for every field set `F` whose field names are
colon-free and every expression produced by the factories from a field of
`F` of compatible dataType, or by `of(F, fns)` with `fns` drawn from the
five known function names, `parse (F, e.toString())` succeeds and returns
an expression with the same fn and the same field name (absent field for
count). -/
theorem c1_roundtrip (F : List Field) (e : AggregateExpression)
    (hcolon : ∀ g ∈ F, ':' ∉ g.name.data)
    (he : producedCompatible F e) :
    ∃ s e2, e.toString = some s ∧ AggregateExpression.parse F s = some e2 ∧
      e2.fn = e.fn ∧ e2.field.map Field.name = e.field.map Field.name := by
  rcases he with rfl | ⟨f, hf, hcase⟩ | ⟨fns, hfns, hmem⟩
  · exact ⟨"count", AggregateExpression.count, rfl, parse_count F, rfl, rfl⟩
  · rcases hcase with ⟨hsumavg, hd⟩ | ⟨hmaxmin, hd⟩
    · rcases hsumavg with rfl | rfl
      · exact roundtrip_noncount F f "sum" hf (hcolon f hf) (by decide) (by decide)
          (Or.inl ⟨Or.inl rfl, hd⟩)
      · exact roundtrip_noncount F f "avg" hf (hcolon f hf) (by decide) (by decide)
          (Or.inl ⟨Or.inr rfl, hd⟩)
    · rcases hmaxmin with rfl | rfl
      · exact roundtrip_noncount F f "max" hf (hcolon f hf) (by decide) (by decide)
          (Or.inr ⟨Or.inl rfl, hd⟩)
      · exact roundtrip_noncount F f "min" hf (hcolon f hf) (by decide) (by decide)
          (Or.inr ⟨Or.inr rfl, hd⟩)
  · rcases mem_of_shape F fns e hmem with rfl | ⟨f, hf, fn, hfn, rfl, hfnc, hdt⟩
    · exact ⟨"count", AggregateExpression.count, rfl, parse_count F, rfl, rfl⟩
    · have hfive := hfns fn hfn
      simp only [List.mem_cons, List.not_mem_nil, or_false] at hfive
      rcases hfive with rfl | rfl | rfl | rfl | rfl
      · exact absurd rfl hfnc
      · rcases hdt with hd | ⟨_, hs, _⟩
        · exact roundtrip_noncount F f "sum" hf (hcolon f hf) (by decide) (by decide)
            (Or.inl ⟨Or.inl rfl, hd⟩)
        · exact absurd rfl hs
      · rcases hdt with hd | ⟨_, _, ha⟩
        · exact roundtrip_noncount F f "avg" hf (hcolon f hf) (by decide) (by decide)
            (Or.inl ⟨Or.inr rfl, hd⟩)
        · exact absurd rfl ha
      · rcases hdt with hd | ⟨hd, _, _⟩
        · exact roundtrip_noncount F f "max" hf (hcolon f hf) (by decide) (by decide)
            (Or.inr ⟨Or.inl rfl, Or.inl hd⟩)
        · exact roundtrip_noncount F f "max" hf (hcolon f hf) (by decide) (by decide)
            (Or.inr ⟨Or.inl rfl, Or.inr hd⟩)
      · rcases hdt with hd | ⟨hd, _, _⟩
        · exact roundtrip_noncount F f "min" hf (hcolon f hf) (by decide) (by decide)
            (Or.inr ⟨Or.inr rfl, Or.inl hd⟩)
        · exact roundtrip_noncount F f "min" hf (hcolon f hf) (by decide) (by decide)
            (Or.inr ⟨Or.inr rfl, Or.inr hd⟩)

/-- C1 (witness): the amended round-trip law at the concrete field set
`[{name:"amt", label:"Amount", dataType:"number"}]` and the factory
expression `sum(amt)`. -/
theorem c1_roundtrip_witness :
    (∀ g ∈ ([⟨"amt", "Amount", "number"⟩] : List Field), ':' ∉ g.name.data) ∧
    producedCompatible [⟨"amt", "Amount", "number"⟩]
      (AggregateExpression.sum ⟨"amt", "Amount", "number"⟩) ∧
    (∃ s e2, (AggregateExpression.sum ⟨"amt", "Amount", "number"⟩).toString = some s ∧
      AggregateExpression.parse [⟨"amt", "Amount", "number"⟩] s = some e2 ∧
      e2.fn = (AggregateExpression.sum ⟨"amt", "Amount", "number"⟩).fn ∧
      e2.field.map Field.name =
        (AggregateExpression.sum ⟨"amt", "Amount", "number"⟩).field.map Field.name) := by
  have hpc : producedCompatible [⟨"amt", "Amount", "number"⟩]
      (AggregateExpression.sum ⟨"amt", "Amount", "number"⟩) :=
    Or.inr (Or.inl ⟨⟨"amt", "Amount", "number"⟩, List.mem_cons_self _ _,
      Or.inl ⟨Or.inl rfl, rfl⟩⟩)
  exact ⟨by decide, hpc, c1_roundtrip _ _ (by decide) hpc⟩

/-- C2: `parse(F, s)` fails (raises `ValidationError`, modelled `none`) iff
`s` is not a member of `validShorthands(F)`; on success it returns a
constructed `AggregateExpression` and raises nothing. -/
theorem c2_parse_validation (F : List Field) (s : String) :
    (AggregateExpression.parse F s = none ↔ s ∉ internals.valids F) ∧
    ((AggregateExpression.parse F s).isSome ↔ s ∈ internals.valids F) := by
  unfold AggregateExpression.parse
  by_cases h : s ∈ internals.valids F <;> simp [h]

/-- C3: `validShorthands` (the source's `internals.valids`) returns exactly
`"count"` first, then per eligible field in input order `max:`/`min:`
shorthands plus, for `number` fields, `sum:`/`avg:`; other dataTypes
contribute nothing, and the empty collection yields `["count"]`. -/
theorem c3_validShorthands (fields : List Field) :
    internals.valids fields =
      "count" ::
        (fields.filter (fun f => f.dataType == "number" || f.dataType == "date")).flatMap
          (fun f => ["max:" ++ f.name, "min:" ++ f.name] ++
            (if f.dataType == "number" then ["sum:" ++ f.name, "avg:" ++ f.name]
             else [])) ∧
    internals.valids [] = ["count"] :=
  ⟨valids_eq fields, rfl⟩

/-- C4 (counterexample): `of([amt], ["avg","sum"])` emits `avg` before
`sum` — the input order of `fns`, not the canonical order `sum, avg`
claimed by the spec. -/
theorem c4_of_order_cex :
    AggregateExpression.of [⟨"amt", "Amount", "number"⟩] (some ["avg", "sum"]) =
      [⟨"avg", some ⟨"amt", "Amount", "number"⟩⟩,
       ⟨"sum", some ⟨"amt", "Amount", "number"⟩⟩] ∧
    AggregateExpression.of [⟨"amt", "Amount", "number"⟩] (some ["avg", "sum"]) ≠
      [⟨"sum", some ⟨"amt", "Amount", "number"⟩⟩,
       ⟨"avg", some ⟨"amt", "Amount", "number"⟩⟩] := by
  decide

/-- C4 (amended): for each field of dataType `number`, `of(fields, fns)`
emits one expression per function of `fns` other than `count`, in the order
those functions appear in `fns` (first occurrence; duplicates preserved) —
and likewise per `date` field for `fns` minus `count`, `sum`, `avg`. -/
theorem c4_of_fns_order (fields : List Field) (fns : List String) :
    AggregateExpression.of fields (some fns) =
      (if "count" ∈ fns then [AggregateExpression.count] else []) ++
      (((fields.filter (fun f => f.dataType == "number")).flatMap
        (fun f => (fns.filter (fun x => !((["count"] : List String).contains x))).map
          (fun fn => (⟨fn, some f⟩ : AggregateExpression)))) ++
       ((fields.filter (fun f => f.dataType == "date")).flatMap
        (fun f =>
          (fns.filter (fun x => !((["count", "sum", "avg"] : List String).contains x))).map
            (fun fn => (⟨fn, some f⟩ : AggregateExpression))))) :=
  of_eq fields fns

/-- C5: the result of `of` is ordered as one `count` expression (present
iff `"count" ∈ fns`), then one block per `number` field in input order,
then one block per `date` field in input order, other dataTypes skipped;
in particular `of([amt], ["sum","count"])` is exactly
`[count(), sum(amt)]`. -/
theorem c5_of_block_order (fields : List Field) (fns : List String) :
    AggregateExpression.of fields (some fns) =
      (if "count" ∈ fns then [AggregateExpression.count] else []) ++
      (((fields.filter (fun f => f.dataType == "number")).flatMap
        (fun f => (lodashDifference fns ["count"]).map
          (fun fn => (⟨fn, some f⟩ : AggregateExpression)))) ++
       ((fields.filter (fun f => f.dataType == "date")).flatMap
        (fun f => (lodashDifference fns ["count", "sum", "avg"]).map
          (fun fn => (⟨fn, some f⟩ : AggregateExpression))))) ∧
    AggregateExpression.of [⟨"amt", "Amount", "number"⟩] (some ["sum", "count"]) =
      [AggregateExpression.count,
       AggregateExpression.sum ⟨"amt", "Amount", "number"⟩] :=
  ⟨of_eq fields fns, by decide⟩

/-- C10: `of` never filters `fns` against the five known function names:
with `fns = ["median"]` it emits a `median` expression for every `number`
field and every `date` field, and duplicate entries in `fns` produce
duplicate expressions per field. -/
theorem c10_of_unfiltered :
    AggregateExpression.of [⟨"n", "N", "number"⟩, ⟨"d", "D", "date"⟩]
        (some ["median"]) =
      [⟨"median", some ⟨"n", "N", "number"⟩⟩,
       ⟨"median", some ⟨"d", "D", "date"⟩⟩] ∧
    AggregateExpression.of [⟨"n", "N", "number"⟩] (some ["sum", "sum"]) =
      [⟨"sum", some ⟨"n", "N", "number"⟩⟩,
       ⟨"sum", some ⟨"n", "N", "number"⟩⟩] := by
  decide

/-- C6: for an expression with `fn ≠ count` and attached field `f`,
`apply` registers on the builder a named aggregation whose name equals the
expression's `toString()` with spec `{fn: {field: f.name}}`, configures
that aggregation to order buckets descending by itself, attaches a bucket
mapper applying `mapper` to the bucket key and the bucket's metric value
for that name, and returns the builder so extended; the default mapper
(when `mapper` is omitted) sends `(k, v)` to `{label: k, value: v}`. -/
theorem c6_apply_noncount (T : Type) (fn : String) (f : Field)
    (agg : Aggregation T) (mapper : String → Nat → T) (h : fn ≠ "count") :
    (AggregateExpression.mk fn (some f)).toString = some (fn ++ ":" ++ f.name) ∧
    (AggregateExpression.mk fn (some f)).apply agg mapper =
      some { aggs := agg.aggs ++ [(fn ++ ":" ++ f.name, fn, f.name)],
             configs := agg.configs ++ [(fn ++ ":" ++ f.name, "desc")],
             mappers := agg.mappers ++
               [fun b => mapper b.key (b.values (fn ++ ":" ++ f.name))] } ∧
    (∀ k v, defaultMapper k v = { label := k, value := v }) ∧
    (AggregateExpression.mk fn (some f)).applyDefault
        { aggs := agg.aggs, configs := agg.configs, mappers := [] } ≠ none := by
  have hstr : (AggregateExpression.mk fn (some f)).toString =
      some (fn ++ ":" ++ f.name) := by
    simp [AggregateExpression.toString, h]
  refine ⟨hstr, ?_, fun k v => rfl, ?_⟩
  · unfold AggregateExpression.apply
    rw [hstr]
    simp only [ne_eq, h, not_false_eq_true, if_pos, ite_true, Option.some.injEq]
    simp [Aggregation.aggregation, Aggregation.configure, Aggregation.mapper]
    rfl
  · unfold AggregateExpression.applyDefault AggregateExpression.apply
    rw [hstr]
    simp [h]

/-- C6 (witness): `apply` of `sum(amt)` on the empty builder with the
default mapper. -/
theorem c6_apply_noncount_witness :
    ("sum" : String) ≠ "count" ∧
    ((AggregateExpression.mk "sum" (some ⟨"amt", "Amount", "number"⟩)).toString =
        some ("sum" ++ ":" ++ "amt") ∧
      (AggregateExpression.mk "sum" (some ⟨"amt", "Amount", "number"⟩)).apply
          (Aggregation.mk ([] : List (String × String × String)) [] []) defaultMapper =
        some { aggs := ([] : List (String × String × String)) ++ [("sum" ++ ":" ++ "amt", "sum", "amt")],
               configs := ([] : List (String × String)) ++ [("sum" ++ ":" ++ "amt", "desc")],
               mappers := ([] : List (ESBucket → LabelValue)) ++
                 [fun b => defaultMapper b.key (b.values ("sum" ++ ":" ++ "amt"))] } ∧
      (∀ k v, defaultMapper k v = { label := k, value := v }) ∧
      (AggregateExpression.mk "sum" (some ⟨"amt", "Amount", "number"⟩)).applyDefault
          { aggs := ([] : List (String × String × String)), configs := [], mappers := [] } ≠
        none) :=
  ⟨by decide, c6_apply_noncount LabelValue "sum" ⟨"amt", "Amount", "number"⟩
    (Aggregation.mk [] [] []) defaultMapper (by decide)⟩

/-- C7: applying the count expression only attaches a bucket mapper that
applies `mapper` to the bucket key and `doc_count`; it registers no named
aggregation and no ordering configuration, leaving all other builder state
unchanged. -/
theorem c7_apply_count (T : Type) (agg : Aggregation T)
    (mapper : String → Nat → T) :
    AggregateExpression.count.apply agg mapper =
      some { aggs := agg.aggs, configs := agg.configs,
             mappers := agg.mappers ++ [fun b => mapper b.key b.doc_count] } := by
  rfl

/-- C8: `label()` maps `count` to "Total Count", `sum` to
"Total " + field.label, `avg` to "Average " + field.label, `max` to
"Max " + field.label, `min` to "Min " + field.label, and any other fn to
"Unknown". -/
theorem c8_label (f : Field) (g : String)
    (hg : g ∉ (["count", "sum", "avg", "max", "min"] : List String)) :
    AggregateExpression.count.label = some "Total Count" ∧
    (AggregateExpression.sum f).label = some ("Total " ++ f.label) ∧
    (AggregateExpression.avg f).label = some ("Average " ++ f.label) ∧
    (AggregateExpression.max f).label = some ("Max " ++ f.label) ∧
    (AggregateExpression.min f).label = some ("Min " ++ f.label) ∧
    (AggregateExpression.mk g (some f)).label = some "Unknown" := by
  simp only [List.mem_cons, List.not_mem_nil, or_false, not_or] at hg
  obtain ⟨h1, h2, h3, h4, h5⟩ := hg
  exact ⟨rfl, rfl, rfl, rfl, rfl, by simp [AggregateExpression.label, h1, h2, h3, h4, h5]⟩

/-- C8 (witness): the label equations at the concrete field
`{name:"amt", label:"Amount", dataType:"number"}` and unknown fn
`"median"`. -/
theorem c8_label_witness :
    ("median" : String) ∉ (["count", "sum", "avg", "max", "min"] : List String) ∧
    (AggregateExpression.count.label = some "Total Count" ∧
      (AggregateExpression.sum ⟨"amt", "Amount", "number"⟩).label =
        some ("Total " ++ "Amount") ∧
      (AggregateExpression.avg ⟨"amt", "Amount", "number"⟩).label =
        some ("Average " ++ "Amount") ∧
      (AggregateExpression.max ⟨"amt", "Amount", "number"⟩).label =
        some ("Max " ++ "Amount") ∧
      (AggregateExpression.min ⟨"amt", "Amount", "number"⟩).label =
        some ("Min " ++ "Amount") ∧
      (AggregateExpression.mk "median" (some ⟨"amt", "Amount", "number"⟩)).label =
        some "Unknown") :=
  ⟨by decide, c8_label ⟨"amt", "Amount", "number"⟩ "median" (by decide)⟩

/-- C9: under the data-model invariant, `toString`, `label` and `apply`
are total (never hit an absent-field dereference, i.e. never return the
`none` that models a raised error), and a field of unrecognized dataType
contributes nothing to `validShorthands` or `of` rather than erroring. -/
theorem c9_totality (e : AggregateExpression) (hw : wellFormed e)
    (T : Type) (agg : Aggregation T) (mapper : String → Nat → T)
    (f : Field) (hf1 : f.dataType ≠ "number") (hf2 : f.dataType ≠ "date")
    (pre post : List Field) (fns? : Option (List String)) :
    e.toString.isSome ∧ e.label.isSome ∧ (e.apply agg mapper).isSome ∧
    internals.valids (pre ++ f :: post) = internals.valids (pre ++ post) ∧
    AggregateExpression.of (pre ++ f :: post) fns? =
      AggregateExpression.of (pre ++ post) fns? := by
  have hval : internals.valids (pre ++ f :: post) = internals.valids (pre ++ post) := by
    rw [valids_eq, valids_eq, List.filter_append, List.filter_append,
      List.filter_cons_of_neg (by simp [hf1, hf2])]
  have hof : ∀ fns : List String,
      AggregateExpression.of (pre ++ f :: post) (some fns) =
        AggregateExpression.of (pre ++ post) (some fns) := by
    intro fns
    rw [of_eq, of_eq, List.filter_append, List.filter_append, List.filter_append,
      List.filter_append, List.filter_cons_of_neg (by simp [hf1]),
      List.filter_cons_of_neg (by simp [hf2])]
  have hofx : AggregateExpression.of (pre ++ f :: post) fns? =
      AggregateExpression.of (pre ++ post) fns? := by
    cases fns? with
    | none => exact hof ["count", "sum", "avg", "max", "min"]
    | some fns => exact hof fns
  obtain ⟨fn0, field0⟩ := e
  unfold wellFormed at hw
  by_cases hc : fn0 = "count"
  · subst hc
    rw [if_pos rfl] at hw
    rw [show (AggregateExpression.mk "count" field0).field = field0 from rfl] at hw
    subst hw
    exact ⟨rfl, rfl, rfl, hval, hofx⟩
  · rw [if_neg hc] at hw
    obtain ⟨f0, hf0⟩ := Option.isSome_iff_exists.mp hw
    rw [show (AggregateExpression.mk fn0 field0).field = field0 from rfl] at hf0
    subst hf0
    have hstr : (AggregateExpression.mk fn0 (some f0)).toString =
        some (fn0 ++ ":" ++ f0.name) := by
      simp [AggregateExpression.toString, hc]
    refine ⟨by simp [hstr], ?_, ?_, hval, hofx⟩
    · by_cases h2 : fn0 = "sum" <;> by_cases h3 : fn0 = "avg" <;>
        by_cases h4 : fn0 = "max" <;> by_cases h5 : fn0 = "min" <;>
        simp [AggregateExpression.label, hc, h2, h3, h4, h5]
    · unfold AggregateExpression.apply
      rw [hstr]
      simp [hc]

/-- C9 (witness): totality at `sum(amt)` against the empty builder, with
the unrecognized-dataType field `{name:"txt", dataType:"string"}` dropped
from enumeration. -/
theorem c9_totality_witness :
    wellFormed (AggregateExpression.sum ⟨"amt", "Amount", "number"⟩) ∧
    (Field.mk "txt" "Text" "string").dataType ≠ "number" ∧
    (Field.mk "txt" "Text" "string").dataType ≠ "date" ∧
    ((AggregateExpression.sum ⟨"amt", "Amount", "number"⟩).toString.isSome ∧
      (AggregateExpression.sum ⟨"amt", "Amount", "number"⟩).label.isSome ∧
      ((AggregateExpression.sum ⟨"amt", "Amount", "number"⟩).apply
        (Aggregation.mk ([] : List (String × String × String)) [] [])
        defaultMapper).isSome ∧
      internals.valids ([] ++ ⟨"txt", "Text", "string"⟩ :: [⟨"amt", "Amount", "number"⟩]) =
        internals.valids ([] ++ [⟨"amt", "Amount", "number"⟩]) ∧
      AggregateExpression.of
          ([] ++ ⟨"txt", "Text", "string"⟩ :: [⟨"amt", "Amount", "number"⟩]) none =
        AggregateExpression.of ([] ++ [⟨"amt", "Amount", "number"⟩]) none) := by
  have hwf : wellFormed (AggregateExpression.sum ⟨"amt", "Amount", "number"⟩) := by
    unfold wellFormed
    rw [if_neg (by decide :
      ¬(AggregateExpression.sum ⟨"amt", "Amount", "number"⟩).fn = "count")]
    rfl
  exact ⟨hwf, by decide, by decide,
    c9_totality _ hwf LabelValue (Aggregation.mk [] [] []) defaultMapper
      ⟨"txt", "Text", "string"⟩ (by decide) (by decide) [] [⟨"amt", "Amount", "number"⟩]
      none⟩

end Utils
